import Mathlib

/-
Shallow embedding of scrapit/main.py (CLI entrypoint of the scrapit
repository): the settings-coercion loop inside the `run` command, the
project-path resolution and validation, `setup_logging`, and `create_app`.

Modelling conventions:
  * Python strings are modelled as `List Char` (`toCl` converts a Lean
    string literal).  Unicode-sensitive Python predicates (`str.isdigit`)
    are modelled on the fragment relevant to the development: ASCII plus
    the Latin-1 superscript digits U+00B9/U+00B2/U+00B3, which CPython's
    `str.isdigit` accepts (Numeric_Type=Digit) while `int()` rejects them
    (it accepts only decimal digits).
  * Python floats are modelled by `PyFloat`: the exact rational value
    denoted by the accepted literal (rounding to binary is irrelevant to
    every statement below), plus infinities and NaN.
  * Exceptions are modelled with `Except PyExc`; the `try/except
    ValueError` around `float(value)` in the source is the only handler.
  * The filesystem (`os.path.isdir`) and the current working directory
    are parameters of the `run` model; the route factory `create_router`
    is an opaque function parameter recorded in a call trace.
-/

namespace Scrapit

def toCl (s : String) : List Char := s.toList

/-- Python `ValueError` as raised by `int()` / `float()`; carries the
offending string. -/
inductive PyExc where
  | valueError (arg : List Char)
deriving DecidableEq

/-- Value of a CPython `float`, with the finite case kept exact as the
fraction `num / den` read off the decimal literal (`den` a power of ten,
not normalized: the parse of a given string is deterministic, and the
denoted rational is recovered by `PyFloat.toRat`; rounding to binary is
irrelevant to every statement below). -/
inductive PyFloat where
  | finite (num : Int) (den : Nat)
  | inf (neg : Bool)
  | nan
deriving DecidableEq

/-- The typed values a coerced setting can take (bool / int / float / str),
mirroring the dynamic types produced by lines 138-146 of main.py. -/
inductive SettingValue where
  | bool (b : Bool)
  | int (n : Int)
  | float (f : PyFloat)
  | str (s : List Char)
deriving DecidableEq

abbrev Dict := List (List Char × SettingValue)

instance {ε α : Type} [DecidableEq ε] [DecidableEq α] : DecidableEq (Except ε α) :=
  fun x y =>
    match x, y with
    | .ok a, .ok b =>
      if h : a = b then .isTrue (by rw [h])
      else .isFalse (fun he => h (by injection he))
    | .error a, .error b =>
      if h : a = b then .isTrue (by rw [h])
      else .isFalse (fun he => h (by injection he))
    | .ok _, .error _ => .isFalse (fun he => Except.noConfusion he)
    | .error _, .ok _ => .isFalse (fun he => Except.noConfusion he)

def isOkE {α : Type} : Except PyExc α → Bool
  | .ok _ => true
  | .error _ => false

/-- Membership test for a character, Python `c in s`. -/
def hasChar (c : Char) (l : List Char) : Bool :=
  l.any (fun x => decide (x = c))

def allAscii (l : List Char) : Bool :=
  l.all (fun c => decide (c.toNat < 128))

/-- Python default whitespace characters stripped by `str.strip`,
`int()` and `float()` (ASCII fragment). -/
def pyWsChar (c : Char) : Bool :=
  (c == ' ') || (c == '\t') || (c == '\n') || (c == '\r') || (c == '\x0b') || (c == '\x0c')

/-- Python `str.strip()` with no argument. -/
def pyStrip (l : List Char) : List Char :=
  ((l.dropWhile pyWsChar).reverse.dropWhile pyWsChar).reverse

/-- Python `str.lower()` (ASCII case mapping). -/
def pyLower (l : List Char) : List Char := l.map Char.toLower

/-- Characters accepted by Python `str.isdigit`: decimal digits plus
digit-property characters; the modelled non-decimal representatives are
the Latin-1 superscripts, for which `int()` raises `ValueError`. -/
def pyIsdigitChar (c : Char) : Bool :=
  c.isDigit || (c == '¹') || (c == '²') || (c == '³')

/-- Python `str.isdigit`: nonempty and every character a digit. -/
def pyIsdigit (l : List Char) : Bool :=
  !l.isEmpty && l.all pyIsdigitChar

/-- Leading sign of a numeric literal, as consumed by `int()` / `float()`:
returns (isNegative, remainder). -/
def signSplit (l : List Char) : Bool × List Char :=
  match l with
  | [] => (false, [])
  | c :: r => if c = '+' then (false, r) else if c = '-' then (true, r) else (false, l)

/-- Tail of a CPython digit-part after its first digit: digits with single
underscores allowed only between digits. -/
def isDigitPartTail : List Char → Bool
  | [] => true
  | [c] => c.isDigit
  | c :: c2 :: rest =>
    if c = '_' then c2.isDigit && isDigitPartTail rest
    else c.isDigit && isDigitPartTail (c2 :: rest)

/-- CPython digit-part: nonempty run of decimal digits with optional single
underscores between digits (PEP 515). -/
def isDigitPart : List Char → Bool
  | [] => false
  | c :: rest => c.isDigit && isDigitPartTail rest

def stripUnders (l : List Char) : List Char :=
  l.filter (fun c => decide (c ≠ '_'))

/-- Numeric value of a digit-part (underscores removed). -/
def natOfDigits (l : List Char) : Nat :=
  (stripUnders l).foldl (fun n c => 10 * n + (c.toNat - 48)) 0

/-- Python `int(value)` on a string: strip, optional sign, digit-part. -/
def pyIntE (v : List Char) : Except PyExc Int :=
  let sg := signSplit (pyStrip v)
  if isDigitPart sg.2 then
    .ok (if sg.1 then -(natOfDigits sg.2 : Int) else (natOfDigits sg.2 : Int))
  else .error (.valueError v)

/-- Split a string at the first occurrence of a character, Python
`s.split(c, 1)` when present. -/
def splitFirstOn (c : Char) : List Char → Option (List Char × List Char)
  | [] => none
  | x :: xs =>
    if x = c then some ([], xs)
    else (splitFirstOn c xs).map (fun p => (x :: p.1, p.2))

/-- Split a string at the first occurrence of an exponent marker. -/
def splitFirstOnE : List Char → Option (List Char × List Char)
  | [] => none
  | x :: xs =>
    if x = 'e' ∨ x = 'E' then some ([], xs)
    else (splitFirstOnE xs).map (fun p => (x :: p.1, p.2))

/-- Mantissa of a CPython float literal: `digitpart | digitpart "." |
"." digitpart | digitpart "." digitpart`, valued exactly as the fraction
(numerator, power-of-ten denominator). -/
def parseMantissa (l : List Char) : Option (Nat × Nat) :=
  match splitFirstOn '.' l with
  | none => if isDigitPart l then some (natOfDigits l, 1) else none
  | some ipfp =>
    if (ipfp.1.isEmpty || isDigitPart ipfp.1) && (ipfp.2.isEmpty || isDigitPart ipfp.2)
        && !(ipfp.1.isEmpty && ipfp.2.isEmpty) then
      some (natOfDigits ipfp.1 * 10 ^ (stripUnders ipfp.2).length + natOfDigits ipfp.2,
        10 ^ (stripUnders ipfp.2).length)
    else none

/-- Numeric part of a CPython float literal: mantissa with optional
exponent `e [sign] digitpart` scaling the fraction by a power of ten. -/
def parseNumeric (l : List Char) : Option (Nat × Nat) :=
  match splitFirstOnE l with
  | none => parseMantissa l
  | some me =>
    let sg := signSplit me.2
    match parseMantissa me.1 with
    | some nd =>
      if isDigitPart sg.2 then
        some (if sg.1 then (nd.1, nd.2 * 10 ^ natOfDigits sg.2)
          else (nd.1 * 10 ^ natOfDigits sg.2, nd.2))
      else none
    | none => none

/-- Python `float(value)` on a string: strip, optional sign, then
inf / infinity / nan (case-insensitive) or a numeric literal. -/
def pyFloatE (v : List Char) : Except PyExc PyFloat :=
  let sg := signSplit (pyStrip v)
  let low := pyLower sg.2
  if low = toCl "inf" ∨ low = toCl "infinity" then .ok (.inf sg.1)
  else if low = toCl "nan" then .ok .nan
  else
    match parseNumeric sg.2 with
    | some nd => .ok (.finite (if sg.1 then -(nd.1 : Int) else (nd.1 : Int)) nd.2)
    | none => .error (.valueError v)

/-- Rational denoted by a finite Python float value. -/
def PyFloat.toRat : PyFloat → Option ℚ
  | .finite num den => some ((num : ℚ) / (den : ℚ))
  | .inf _ => none
  | .nan => none

/-- Type coercion of one settings value, main.py lines 137-146:
booleans first (case-insensitive), then `isdigit` guarding `int(value)`
(which can still raise, uncaught), then `float(value)` with the
`except ValueError` fallback keeping the original string. -/
def coerceValueE (v : List Char) : Except PyExc SettingValue :=
  if pyLower v = toCl "true" ∨ pyLower v = toCl "false" then
    .ok (.bool (decide (pyLower v = toCl "true")))
  else if pyIsdigit v = true then
    (pyIntE v).map SettingValue.int
  else
    match pyFloatE v with
    | .ok f => .ok (.float f)
    | .error _ => .ok (.str v)

/-- Prepend a character to the first piece of a split. -/
def consHead (x : Char) : List (List Char) → List (List Char)
  | [] => [[x]]
  | h :: t => (x :: h) :: t

/-- Python `str.split(sep)` for a one-character separator. -/
def splitOnChar (c : Char) : List Char → List (List Char)
  | [] => [[]]
  | x :: xs =>
    if x = c then [] :: splitOnChar c xs
    else consHead x (splitOnChar c xs)

/-- Candidate entries, main.py line 133:
`settings.split(",") if "," in settings else [settings]`. -/
def settingsList (s : List Char) : List (List Char) :=
  if hasChar ',' s then splitOnChar ',' s else [s]

/-- Python dict assignment `d[k] = v`: replace in place if the key is
present, else append. -/
def dictInsert : Dict → List Char → SettingValue → Dict
  | [], k, v => [(k, v)]
  | p :: rest, k, v => if p.1 = k then (p.1, v) :: rest else p :: dictInsert rest k v

def dictLookup : Dict → List Char → Option SettingValue
  | [], _k => none
  | p :: rest, k => if p.1 = k then some p.2 else dictLookup rest k

def dictKeys (d : Dict) : List (List Char) := d.map Prod.fst

/-- Warning text of main.py line 148. -/
def warnMsg (e : List Char) : List Char :=
  toCl "Ignoring invalid setting format: " ++ e

/-- The settings loop of main.py lines 134-148, threading the dict and
collecting the warnings of the surviving run; an exception raised by
`int(value)` aborts the loop. -/
def processEntriesE (d : Dict) : List (List Char) → Except PyExc (Dict × List (List Char))
  | [] => .ok (d, [])
  | e :: rest =>
    match splitFirstOn '=' e with
    | some kv =>
      (coerceValueE kv.2).bind
        (fun sv => processEntriesE (dictInsert d (pyStrip kv.1) sv) rest)
    | none =>
      (processEntriesE d rest).map (fun mw => (mw.1, warnMsg e :: mw.2))

/-- Value bound to a key by a single candidate entry, if any:
first-`=` split, stripped key, coerced value. -/
def entryVal (k : List Char) (e : List Char) : Option SettingValue :=
  match splitFirstOn '=' e with
  | some kv => if pyStrip kv.1 = k then (coerceValueE kv.2).toOption else none
  | none => none

/-- Value bound to a key by the LAST matching entry of a list (later
entries take precedence). -/
def lastOk (k : List Char) : List (List Char) → Option SettingValue
  | [] => none
  | e :: rest =>
    match lastOk k rest with
    | some v => some v
    | none => entryVal k e

/- ---------------- logging (main.py lines 15-39) ---------------- -/

def logDEBUG : Nat := 10
def logINFO : Nat := 20
def logWARNING : Nat := 30

/-- Process-wide logging state: the root logger configured by
`logging.basicConfig` plus the two named loggers the code touches. -/
structure LoggingState where
  rootLevel : Nat
  rootFormat : List Char
  handlersConfigured : Bool
  scrapitLevel : Nat
  scrapyLevel : Nat
deriving DecidableEq

def debugFormat : List Char :=
  toCl "%(asctime)s - %(name)s - %(levelname)s - [%(filename)s:%(lineno)d] - %(message)s"

def stdFormat : List Char :=
  toCl "%(asctime)s - %(name)s - %(levelname)s - %(message)s"

/-- `logging.basicConfig(level, format, force)`: without `force` it is a
no-op once handlers are configured; with `force=True` it replaces the
root configuration unconditionally. -/
def basicConfig (st : LoggingState) (level : Nat) (fmt : List Char) (force : Bool) :
    LoggingState :=
  if force || !st.handlersConfigured then
    { st with rootLevel := level, rootFormat := fmt, handlersConfigured := true }
  else st

/-- main.py `setup_logging(debug)`. -/
def setup_logging (st : LoggingState) (debug : Bool) : LoggingState :=
  let level := if debug then logDEBUG else logINFO
  let fmt := if debug then debugFormat else stdFormat
  let st1 := basicConfig st level fmt true
  if debug then { st1 with scrapitLevel := logDEBUG, scrapyLevel := logINFO }
  else { st1 with scrapitLevel := logINFO, scrapyLevel := logWARNING }

/-- Substring test (used to state that a format carries the
file/line directives). -/
def hasSub (pat : List Char) : List Char → Bool
  | [] => pat.isEmpty
  | c :: rest => pat.isPrefixOf (c :: rest) || hasSub pat rest

/- ---------------- create_app (main.py lines 48-92) ---------------- -/

/-- Arguments of the CORSMiddleware added by `create_app`. -/
structure CORSMiddlewareModel where
  allow_origins : List (List Char)
  allow_credentials : Bool
  allow_methods : List (List Char)
  allow_headers : List (List Char)

/-- The five keyword arguments `create_app` passes to `create_router`. -/
structure RouterArgs where
  project_path : Option (List Char)
  timeout : Option ℚ
  additional_settings : Dict
  debug : Bool
  include_logs : Bool

/-- Observable assembly of the FastAPI application: metadata, installed
middleware, mounted routers. -/
structure FastAPIModel (R : Type) where
  title : List Char
  description : List Char
  version : List Char
  middleware : List CORSMiddlewareModel
  routers : List R

/-- main.py `create_app`, with the route factory abstracted as a function
parameter; the second component is the trace of factory invocations. -/
def create_app (R : Type) (create_router : RouterArgs → R)
    (project_path : Option (List Char)) (timeout : Option ℚ)
    (additional_settings : Dict) (debug : Bool) (include_logs : Bool) :
    FastAPIModel R × List RouterArgs :=
  let args : RouterArgs :=
    ⟨project_path, timeout, additional_settings, debug, include_logs⟩
  ({ title := toCl "ScrapyRT-Compatible API"
     description := toCl "FastAPI wrapper for Scrapy spiders with ScrapyRT compatibility"
     version := toCl "1.0.0"
     middleware := [⟨[toCl "*"], true, [toCl "*"], [toCl "*"]⟩]
     routers := [create_router args] }, [args])

/- ---------------- the run command (main.py lines 96-182) ---------------- -/

/-- Resolved CLI option values of the `run` command. -/
structure CliOpts where
  port : Int
  host : List Char
  project : Option (List Char)
  settings : Option (List Char)
  timeout : Option ℚ
  debug : Bool
  include_logs : Bool

/-- Outcome of `run`: a `typer.Exit`, an uncaught exception, or handing
the assembled app to uvicorn. -/
inductive RunResult (R : Type) where
  | exited (code : Nat)
  | uncaught (ex : PyExc)
  | serving (app : FastAPIModel R) (host : List Char) (port : Int) (logLevel : List Char)

def isExited {R : Type} : RunResult R → Bool
  | .exited _ => true
  | _ => false

/-- main.py lines 130-148: `additional_settings` as computed by `run`
(empty when `--settings` is absent or falsy). -/
def parsedSettings (o : CliOpts) : Except PyExc Dict :=
  match o.settings with
  | some s => if s = [] then .ok [] else (processEntriesE [] (settingsList s)).map Prod.fst
  | none => .ok []

/-- main.py line 151, `project or os.getcwd()`: Python `or` falls through
on a falsy (empty) explicit value. -/
def resolved_project_path (project : Option (List Char)) (cwd : List Char) : List Char :=
  match project with
  | some p => if p = [] then cwd else p
  | none => cwd

/-- Modelled from the spec: the resolution rule as the spec words it
("the explicit --project value if given, else the current working
directory"), used only to compare against the source's resolution. -/
def resolved_project_path_spec (project : Option (List Char)) (cwd : List Char) : List Char :=
  match project with
  | some p => p
  | none => cwd

/-- main.py `run`: parse settings, resolve and validate the project path
(exit code 1 if not a directory), assemble the app, hand it to uvicorn. -/
def run (R : Type) (create_router : RouterArgs → R) (isdir : List Char → Bool)
    (cwd : List Char) (o : CliOpts) : RunResult R :=
  match parsedSettings o with
  | .error ex => .uncaught ex
  | .ok additional =>
    let pp := resolved_project_path o.project cwd
    if isdir pp = false then .exited 1
    else
      .serving
        (create_app R create_router (some pp) o.timeout additional o.debug o.include_logs).1
        o.host o.port (if o.debug then toCl "debug" else toCl "info")

/- ---------------- helper lemmas: characters and digit runs ---------------- -/

theorem ws_not_digit (c : Char) (h : pyWsChar c = true) : c.isDigit = false := by
  simp only [pyWsChar, Bool.or_eq_true, beq_iff_eq] at h
  rcases h with ((((h | h) | h) | h) | h) | h <;> subst h <;> decide

theorem digit_ne_special (c : Char) (h : c.isDigit = true) :
    c ≠ '+' ∧ c ≠ '-' ∧ c ≠ '_' ∧ pyWsChar c = false := by
  refine ⟨?_, ?_, ?_, ?_⟩
  · intro e; subst e; exact absurd h (by decide)
  · intro e; subst e; exact absurd h (by decide)
  · intro e; subst e; exact absurd h (by decide)
  · by_contra hw
    rw [Bool.not_eq_false] at hw
    have hd := ws_not_digit c hw
    rw [h] at hd
    exact Bool.noConfusion hd

theorem dropWhile_all_false {p : Char → Bool} {l : List Char}
    (h : ∀ c ∈ l, p c = false) : l.dropWhile p = l := by
  cases l with
  | nil => rfl
  | cons x xs =>
    rw [List.dropWhile_cons, h x (List.mem_cons_self x xs)]
    simp

theorem pyStrip_id {l : List Char} (h : ∀ c ∈ l, pyWsChar c = false) : pyStrip l = l := by
  unfold pyStrip
  rw [dropWhile_all_false h]
  rw [dropWhile_all_false (fun c hc => h c (List.mem_reverse.mp hc))]
  exact List.reverse_reverse l

theorem isDigitPartTail_of_digits :
    ∀ {l : List Char}, (∀ c ∈ l, c.isDigit = true) → isDigitPartTail l = true
  | [], _h => rfl
  | [c], h => by
    have hc := h c (List.mem_singleton.mpr rfl)
    simp [isDigitPartTail, hc]
  | c :: c2 :: rest, h => by
    have hc := h c (List.mem_cons_self c (c2 :: rest))
    have ih := isDigitPartTail_of_digits (l := c2 :: rest)
      (fun d hd => h d (List.mem_cons_of_mem c hd))
    simp [isDigitPartTail, (digit_ne_special c hc).2.2.1, hc, ih]

theorem isDigitPart_of_digits {l : List Char} (hne : l ≠ [])
    (h : ∀ c ∈ l, c.isDigit = true) : isDigitPart l = true := by
  cases l with
  | nil => exact absurd rfl hne
  | cons x xs =>
    simp only [isDigitPart]
    rw [h x (List.mem_cons_self x xs),
      isDigitPartTail_of_digits (fun c hc => h c (List.mem_cons_of_mem x hc))]
    rfl

theorem signSplit_digits {l : List Char} (hne : l ≠ [])
    (h : ∀ c ∈ l, c.isDigit = true) : signSplit l = (false, l) := by
  cases l with
  | nil => exact absurd rfl hne
  | cons x xs =>
    have hx := h x (List.mem_cons_self x xs)
    simp only [signSplit, if_neg (digit_ne_special x hx).1, if_neg (digit_ne_special x hx).2.1]

theorem pyIntE_digits {l : List Char} (hne : l ≠ [])
    (h : ∀ c ∈ l, c.isDigit = true) : pyIntE l = .ok ((natOfDigits l : Int)) := by
  have hs : pyStrip l = l := pyStrip_id (fun c hc => (digit_ne_special c (h c hc)).2.2.2)
  simp only [pyIntE, hs, signSplit_digits hne h, isDigitPart_of_digits hne h, if_true]
  rfl

theorem ascii_digit_char {c : Char} (hA : c.toNat < 128)
    (hD : pyIsdigitChar c = true) : c.isDigit = true := by
  simp only [pyIsdigitChar, Bool.or_eq_true, beq_iff_eq] at hD
  rcases hD with ((h | h) | h) | h
  · exact h
  all_goals (subst h; exact absurd hA (by decide))

theorem allAscii_iff {l : List Char} : allAscii l = true ↔ ∀ c ∈ l, c.toNat < 128 := by
  simp [allAscii]

theorem pyIsdigit_ascii {l : List Char} (hA : allAscii l = true)
    (hD : pyIsdigit l = true) : l ≠ [] ∧ ∀ c ∈ l, c.isDigit = true := by
  rw [allAscii_iff] at hA
  simp only [pyIsdigit, Bool.and_eq_true, List.all_eq_true] at hD
  obtain ⟨h1, h2⟩ := hD
  refine ⟨?_, fun c hc => ascii_digit_char (hA c hc) (h2 c hc)⟩
  intro he
  subst he
  simp at h1

/- ---------------- helper lemmas: splitting ---------------- -/

theorem hasChar_nil (c : Char) : hasChar c [] = false := rfl

theorem hasChar_cons (c x : Char) (l : List Char) :
    hasChar c (x :: l) = (decide (x = c) || hasChar c l) := rfl

theorem splitFirstOn_eq {c : Char} :
    ∀ {l : List Char} {kv : List Char × List Char}, splitFirstOn c l = some kv →
      l = kv.1 ++ c :: kv.2 ∧ hasChar c kv.1 = false := by
  intro l
  induction l with
  | nil => intro kv h; exact absurd h (by simp [splitFirstOn])
  | cons x xs ih =>
    intro kv h
    simp only [splitFirstOn] at h
    by_cases hx : x = c
    · rw [if_pos hx] at h
      injection h with h
      subst h
      subst hx
      exact ⟨rfl, rfl⟩
    · rw [if_neg hx] at h
      rcases Option.map_eq_some'.mp h with ⟨p, hp, hkv⟩
      obtain ⟨h1, h2⟩ := ih hp
      subst hkv
      refine ⟨by simpa using h1, ?_⟩
      rw [hasChar_cons]
      simp [hx, h2]

theorem splitFirstOn_append {c : Char} :
    ∀ {k v : List Char}, hasChar c k = false → splitFirstOn c (k ++ c :: v) = some (k, v) := by
  intro k
  induction k with
  | nil => intro v _h; simp [splitFirstOn]
  | cons x xs ih =>
    intro v h
    rw [hasChar_cons] at h
    simp only [Bool.or_eq_false_iff, decide_eq_false_iff_not] at h
    rw [List.cons_append]
    simp only [splitFirstOn]
    rw [if_neg h.1, ih h.2]
    rfl

theorem splitFirstOn_none_iff {c : Char} :
    ∀ {l : List Char}, (splitFirstOn c l = none ↔ hasChar c l = false) := by
  intro l
  induction l with
  | nil => simp [splitFirstOn, hasChar_nil]
  | cons x xs ih =>
    simp only [splitFirstOn, hasChar_cons]
    by_cases hx : x = c
    · simp [hx]
    · simp [hx, Option.map_eq_none', ih]

theorem hasChar_of_splitFirstOn {c : Char} {l : List Char} {kv : List Char × List Char}
    (h : splitFirstOn c l = some kv) : hasChar c l = true := by
  by_contra hc
  rw [Bool.not_eq_true] at hc
  rw [splitFirstOn_none_iff.mpr hc] at h
  exact Option.noConfusion h

theorem splitOnChar_sub {c : Char} :
    ∀ {l e : List Char}, e ∈ splitOnChar c l → ∀ {x : Char}, x ∈ e → x ∈ l := by
  intro l
  induction l with
  | nil =>
    intro e he x hx
    simp [splitOnChar] at he
    subst he
    simp at hx
  | cons y ys ih =>
    intro e he x hx
    by_cases hy : y = c
    · rw [splitOnChar, if_pos hy] at he
      rcases List.mem_cons.mp he with h | h
      · subst h; simp at hx
      · exact List.mem_cons_of_mem y (ih h hx)
    · rw [splitOnChar, if_neg hy] at he
      cases hr : splitOnChar c ys with
      | nil =>
        rw [hr] at he
        simp only [consHead] at he
        rcases List.mem_singleton.mp he with rfl
        rcases List.mem_singleton.mp hx with rfl
        exact List.mem_cons_self x ys
      | cons h t =>
        rw [hr] at he
        simp only [consHead] at he
        rcases List.mem_cons.mp he with h1 | h1
        · subst h1
          rcases List.mem_cons.mp hx with h2 | h2
          · subst h2; exact List.mem_cons_self x ys
          · have hh : h ∈ splitOnChar c ys := by
              rw [hr]; exact List.mem_cons_self h t
            exact List.mem_cons_of_mem y (ih hh h2)
        · have hh : e ∈ splitOnChar c ys := by
            rw [hr]; exact List.mem_cons_of_mem h h1
          exact List.mem_cons_of_mem y (ih hh hx)

/- ---------------- helper lemmas: value coercion ---------------- -/

theorem coerceValueE_bool {v : List Char}
    (h : pyLower v = toCl "true" ∨ pyLower v = toCl "false") :
    coerceValueE v = .ok (.bool (decide (pyLower v = toCl "true"))) := by
  simp only [coerceValueE]
  rw [if_pos h]

theorem coerceValueE_int {v : List Char}
    (hb : ¬(pyLower v = toCl "true" ∨ pyLower v = toCl "false"))
    (hA : allAscii v = true) (hd : pyIsdigit v = true) :
    coerceValueE v = .ok (.int (natOfDigits v)) := by
  obtain ⟨hne, hdig⟩ := pyIsdigit_ascii hA hd
  simp only [coerceValueE]
  rw [if_neg hb, if_pos hd, pyIntE_digits hne hdig]
  rfl

theorem coerceValueE_float {v : List Char}
    (hb : ¬(pyLower v = toCl "true" ∨ pyLower v = toCl "false"))
    (hd : pyIsdigit v = false) {q : PyFloat} (hq : pyFloatE v = .ok q) :
    coerceValueE v = .ok (.float q) := by
  simp only [coerceValueE]
  rw [if_neg hb, if_neg (by rw [hd]; exact Bool.false_ne_true), hq]

theorem coerceValueE_str {v : List Char}
    (hb : ¬(pyLower v = toCl "true" ∨ pyLower v = toCl "false"))
    (hd : pyIsdigit v = false) {ex : PyExc} (hq : pyFloatE v = .error ex) :
    coerceValueE v = .ok (.str v) := by
  simp only [coerceValueE]
  rw [if_neg hb, if_neg (by rw [hd]; exact Bool.false_ne_true), hq]

theorem coerceValueE_ok_ascii {v : List Char} (hA : allAscii v = true) :
    ∃ sv, coerceValueE v = .ok sv := by
  by_cases hb : pyLower v = toCl "true" ∨ pyLower v = toCl "false"
  · exact ⟨_, coerceValueE_bool hb⟩
  · by_cases hd : pyIsdigit v = true
    · exact ⟨_, coerceValueE_int hb hA hd⟩
    · have hd' : pyIsdigit v = false := by
        revert hd; cases pyIsdigit v <;> simp
      cases hq : pyFloatE v with
      | ok q => exact ⟨_, coerceValueE_float hb hd' hq⟩
      | error ex => exact ⟨_, coerceValueE_str hb hd' hq⟩

/- ---------------- helper lemmas: the settings loop ---------------- -/

theorem processEntriesE_nil (d : Dict) : processEntriesE d [] = .ok (d, []) := rfl

theorem processEntriesE_cons_some {d : Dict} {e : List Char} {rest : List (List Char)}
    {kv : List Char × List Char} (h : splitFirstOn '=' e = some kv) :
    processEntriesE d (e :: rest) =
      (coerceValueE kv.2).bind
        (fun sv => processEntriesE (dictInsert d (pyStrip kv.1) sv) rest) := by
  simp only [processEntriesE, h]

theorem processEntriesE_cons_none {d : Dict} {e : List Char} {rest : List (List Char)}
    (h : splitFirstOn '=' e = none) :
    processEntriesE d (e :: rest) =
      (processEntriesE d rest).map (fun mw => (mw.1, warnMsg e :: mw.2)) := by
  simp only [processEntriesE, h]

theorem processEntriesE_warnings :
    ∀ {l : List (List Char)} {d m : Dict} {w : List (List Char)},
      processEntriesE d l = .ok (m, w) →
      w = (l.filter (fun e => !(hasChar '=' e))).map warnMsg := by
  intro l
  induction l with
  | nil =>
    intro d m w h
    rw [processEntriesE_nil] at h
    injection h with h
    injection h with h1 h2
    subst h2
    simp
  | cons e rest ih =>
    intro d m w h
    cases hs : splitFirstOn '=' e with
    | some kv =>
      rw [processEntriesE_cons_some hs] at h
      cases hc : coerceValueE kv.2 with
      | ok sv =>
        rw [hc] at h
        simp only [Except.bind] at h
        rw [List.filter_cons]
        rw [hasChar_of_splitFirstOn hs]
        simpa using ih h
      | error ex =>
        rw [hc] at h
        simp only [Except.bind] at h
        exact Except.noConfusion h
    | none =>
      rw [processEntriesE_cons_none hs] at h
      cases hr : processEntriesE d rest with
      | ok mw =>
        rw [hr] at h
        simp only [Except.map] at h
        injection h with h
        injection h with h1 h2
        subst h2
        have hrec := ih (d := d) (by rw [hr])
        rw [List.filter_cons, splitFirstOn_none_iff.mp hs]
        simpa using hrec
      | error ex =>
        rw [hr] at h
        simp only [Except.map] at h
        exact Except.noConfusion h

theorem processEntriesE_filter :
    ∀ {l : List (List Char)} {d m : Dict} {w : List (List Char)},
      processEntriesE d l = .ok (m, w) →
      processEntriesE d (l.filter (fun e => hasChar '=' e)) = .ok (m, []) := by
  intro l
  induction l with
  | nil =>
    intro d m w h
    rw [processEntriesE_nil] at h
    injection h with h
    injection h with h1 h2
    subst h1
    simp [processEntriesE_nil]
  | cons e rest ih =>
    intro d m w h
    cases hs : splitFirstOn '=' e with
    | some kv =>
      rw [processEntriesE_cons_some hs] at h
      cases hc : coerceValueE kv.2 with
      | ok sv =>
        rw [hc] at h
        simp only [Except.bind] at h
        rw [List.filter_cons, hasChar_of_splitFirstOn hs]
        simpa [processEntriesE_cons_some hs, hc, Except.bind] using ih h
      | error ex =>
        rw [hc] at h
        simp only [Except.bind] at h
        exact Except.noConfusion h
    | none =>
      rw [processEntriesE_cons_none hs] at h
      cases hr : processEntriesE d rest with
      | ok mw =>
        rw [hr] at h
        simp only [Except.map] at h
        injection h with h
        injection h with h1 h2
        subst h1
        rw [List.filter_cons, splitFirstOn_none_iff.mp hs]
        simpa using ih (d := d) (by rw [hr])
      | error ex =>
        rw [hr] at h
        simp only [Except.map] at h
        exact Except.noConfusion h

theorem processEntriesE_ok_ascii :
    ∀ {l : List (List Char)} {d : Dict}, (∀ e ∈ l, allAscii e = true) →
      ∃ mw, processEntriesE d l = .ok mw := by
  intro l
  induction l with
  | nil => intro d _h; exact ⟨_, rfl⟩
  | cons e rest ih =>
    intro d h
    cases hs : splitFirstOn '=' e with
    | some kv =>
      have he := h e (List.mem_cons_self e rest)
      obtain ⟨heq, _⟩ := splitFirstOn_eq hs
      have hv : allAscii kv.2 = true := by
        rw [allAscii_iff] at he ⊢
        intro c hc
        exact he c (by rw [heq]; exact List.mem_append_right _ (List.mem_cons_of_mem _ hc))
      obtain ⟨sv, hsv⟩ := coerceValueE_ok_ascii hv
      obtain ⟨mw, hmw⟩ := ih (fun e' he' => h e' (List.mem_cons_of_mem e he'))
      refine ⟨mw, ?_⟩
      rw [processEntriesE_cons_some hs, hsv]
      simp only [Except.bind]
      exact hmw
    | none =>
      obtain ⟨mw, hmw⟩ := ih (fun e' he' => h e' (List.mem_cons_of_mem e he'))
      refine ⟨(mw.1, warnMsg e :: mw.2), ?_⟩
      rw [processEntriesE_cons_none hs, hmw]
      rfl

theorem settingsList_ascii {s : List Char} (h : allAscii s = true) :
    ∀ e ∈ settingsList s, allAscii e = true := by
  intro e he
  rw [settingsList] at he
  by_cases hc : hasChar ',' s = true
  · rw [if_pos hc] at he
    rw [allAscii_iff] at h ⊢
    intro c hcm
    exact h c (splitOnChar_sub he hcm)
  · rw [if_neg hc] at he
    rcases List.mem_singleton.mp he with rfl
    exact h

/- ---------------- helper lemmas: dict semantics ---------------- -/

theorem dictLookup_insert (d : Dict) (k : List Char) (v : SettingValue) (k' : List Char) :
    dictLookup (dictInsert d k v) k' = if k' = k then some v else dictLookup d k' := by
  induction d with
  | nil =>
    simp only [dictInsert, dictLookup]
    by_cases h : k' = k
    · simp [h]
    · simp [h, Ne.symm h]
  | cons p rest ih =>
    simp only [dictInsert]
    by_cases hp : p.1 = k
    · rw [if_pos hp]
      by_cases hk : k' = k
      · subst hk
        simp [dictLookup, hp]
      · have h1 : p.1 ≠ k' := hp ▸ Ne.symm hk
        simp [dictLookup, h1, hk]
    · rw [if_neg hp]
      by_cases hpk : p.1 = k'
      · have hk : ¬(k' = k) := fun hkk => hp (hpk.trans hkk)
        simp [dictLookup, hpk, hk]
      · simp [dictLookup, hpk, ih]

theorem dictLookup_none_iff {d : Dict} {k : List Char} :
    dictLookup d k = none ↔ k ∉ dictKeys d := by
  induction d with
  | nil => simp [dictLookup, dictKeys]
  | cons p rest ih =>
    simp only [dictLookup, dictKeys, List.map_cons, List.mem_cons]
    by_cases hp : p.1 = k
    · rw [if_pos hp]
      constructor
      · intro h
        exact Option.noConfusion h
      · intro h
        exact absurd (Or.inl hp.symm) h
    · rw [if_neg hp]
      constructor
      · intro h hor
        rcases hor with h1 | h1
        · exact hp h1.symm
        · exact (ih.mp h) h1
      · intro h
        exact ih.mpr (fun hm => h (Or.inr hm))

theorem mem_dictKeys_insert {d : Dict} {k x : List Char} {v : SettingValue} :
    x ∈ dictKeys (dictInsert d k v) ↔ x ∈ dictKeys d ∨ x = k := by
  induction d with
  | nil => simp [dictInsert, dictKeys]
  | cons p rest ih =>
    simp only [dictInsert]
    by_cases hp : p.1 = k
    · rw [if_pos hp]
      simp only [dictKeys, List.map_cons, List.mem_cons]
      rw [hp]
      tauto
    · rw [if_neg hp]
      simp only [dictKeys, List.map_cons, List.mem_cons] at ih ⊢
      rw [ih]
      tauto

theorem dictKeys_insert_nodup {d : Dict} {k : List Char} {v : SettingValue}
    (h : (dictKeys d).Nodup) : (dictKeys (dictInsert d k v)).Nodup := by
  induction d with
  | nil => simp [dictInsert, dictKeys]
  | cons p rest ih =>
    simp only [dictKeys, List.map_cons, List.nodup_cons] at h
    obtain ⟨h1, h2⟩ := h
    simp only [dictInsert]
    by_cases hp : p.1 = k
    · rw [if_pos hp]
      simp only [dictKeys, List.map_cons, List.nodup_cons]
      exact ⟨h1, h2⟩
    · rw [if_neg hp]
      simp only [dictKeys, List.map_cons, List.nodup_cons]
      refine ⟨?_, ih h2⟩
      intro hmem
      rcases mem_dictKeys_insert.mp hmem with hm | hm
      · exact h1 hm
      · exact hp hm

theorem processEntriesE_nodup :
    ∀ {l : List (List Char)} {d m : Dict} {w : List (List Char)},
      (dictKeys d).Nodup → processEntriesE d l = .ok (m, w) → (dictKeys m).Nodup := by
  intro l
  induction l with
  | nil =>
    intro d m w hd h
    rw [processEntriesE_nil] at h
    injection h with h
    injection h with h1 h2
    subst h1
    exact hd
  | cons e rest ih =>
    intro d m w hd h
    cases hs : splitFirstOn '=' e with
    | some kv =>
      rw [processEntriesE_cons_some hs] at h
      cases hc : coerceValueE kv.2 with
      | ok sv =>
        rw [hc] at h
        simp only [Except.bind] at h
        exact ih (dictKeys_insert_nodup hd) h
      | error ex =>
        rw [hc] at h
        simp only [Except.bind] at h
        exact Except.noConfusion h
    | none =>
      rw [processEntriesE_cons_none hs] at h
      cases hr : processEntriesE d rest with
      | ok mw =>
        rw [hr] at h
        simp only [Except.map] at h
        injection h with h
        injection h with h1 h2
        subst h1
        exact ih hd (by rw [hr])
      | error ex =>
        rw [hr] at h
        simp only [Except.map] at h
        exact Except.noConfusion h

theorem dictLookup_processEntriesE :
    ∀ {l : List (List Char)} {d m : Dict} {w : List (List Char)} {k : List Char},
      processEntriesE d l = .ok (m, w) →
      (∀ v, lastOk k l = some v → dictLookup m k = some v) ∧
      (lastOk k l = none → dictLookup m k = dictLookup d k) := by
  intro l
  induction l with
  | nil =>
    intro d m w k h
    rw [processEntriesE_nil] at h
    injection h with h
    injection h with h1 h2
    subst h1
    exact ⟨fun v hv => by simp [lastOk] at hv, fun _ => rfl⟩
  | cons e rest ih =>
    intro d m w k h
    cases hs : splitFirstOn '=' e with
    | none =>
      rw [processEntriesE_cons_none hs] at h
      cases hr : processEntriesE d rest with
      | error ex =>
        rw [hr] at h
        simp only [Except.map] at h
        exact Except.noConfusion h
      | ok mw =>
        rw [hr] at h
        simp only [Except.map] at h
        injection h with h
        injection h with h1 h2
        subst h1
        have hrest := ih (d := d) (k := k) (by rw [hr])
        have hev : entryVal k e = none := by simp [entryVal, hs]
        constructor
        · intro v hv
          simp only [lastOk] at hv
          cases hl : lastOk k rest with
          | some v' =>
            rw [hl] at hv
            injection hv with hv
            subst hv
            exact hrest.1 _ hl
          | none =>
            rw [hl, hev] at hv
            exact Option.noConfusion hv
        · intro hv
          simp only [lastOk] at hv
          cases hl : lastOk k rest with
          | some v' =>
            rw [hl] at hv
            exact Option.noConfusion hv
          | none => exact hrest.2 hl
    | some kv =>
      rw [processEntriesE_cons_some hs] at h
      cases hc : coerceValueE kv.2 with
      | error ex =>
        rw [hc] at h
        simp only [Except.bind] at h
        exact Except.noConfusion h
      | ok sv =>
        rw [hc] at h
        simp only [Except.bind] at h
        have hrest := ih (d := dictInsert d (pyStrip kv.1) sv) (k := k) h
        have hev : entryVal k e = if pyStrip kv.1 = k then some sv else none := by
          simp [entryVal, hs, hc, Except.toOption]
        constructor
        · intro v hv
          simp only [lastOk] at hv
          cases hl : lastOk k rest with
          | some v' =>
            rw [hl] at hv
            injection hv with hv
            subst hv
            exact hrest.1 _ hl
          | none =>
            rw [hl, hev] at hv
            by_cases hk : pyStrip kv.1 = k
            · rw [if_pos hk] at hv
              injection hv with hv
              subst hv
              rw [hrest.2 hl, dictLookup_insert, if_pos hk.symm]
            · rw [if_neg hk] at hv
              exact Option.noConfusion hv
        · intro hv
          simp only [lastOk] at hv
          cases hl : lastOk k rest with
          | some v' =>
            rw [hl] at hv
            exact Option.noConfusion hv
          | none =>
            rw [hl, hev] at hv
            by_cases hk : pyStrip kv.1 = k
            · rw [if_pos hk] at hv
              exact Option.noConfusion hv
            · rw [hrest.2 hl, dictLookup_insert, if_neg (fun e => hk e.symm)]

/- ---------------- claim theorems ---------------- -/

/-- C1 counterexample: the entry k=² is well-formed and its value is
all-digit in Python's sense (str.isdigit accepts the superscript ²), yet
coercion does not produce an integer — or any value at all: int() rejects
the non-decimal digit and raises an uncaught ValueError, so the stated
precedence (boolean, else integer, else float, else string) is not
followed at this input. -/
theorem coercion_superscript_counterexample :
    pyIsdigit (toCl "²") = true ∧
    splitFirstOn '=' (toCl "k=²") = some (toCl "k", toCl "²") ∧
    coerceValueE (toCl "²") = .error (.valueError (toCl "²")) ∧
    processEntriesE [] (settingsList (toCl "k=²")) = .error (.valueError (toCl "²")) :=
  ⟨by decide, by decide, by decide, by decide⟩

/-- C1 (amended): for every well-formed settings entry whose value consists
of ASCII characters, the coercion applies the type-inference precedence in
order — value equal to true/false case-insensitively becomes a boolean,
else an all-digit value becomes an integer, else a value parsing as a
float literal becomes a float, else the value stays a string — and
coercing k1=true,k2=3,k3=2.5,k4=hello yields exactly
{k1: bool true, k2: int 3, k3: float 2.5, k4: "hello"}. -/
theorem coercion_precedence_ascii {v : List Char} (hA : allAscii v = true) :
    (pyLower v = toCl "true" → coerceValueE v = .ok (.bool true)) ∧
    (pyLower v = toCl "false" → coerceValueE v = .ok (.bool false)) ∧
    (pyLower v ≠ toCl "true" → pyLower v ≠ toCl "false" → pyIsdigit v = true →
      coerceValueE v = .ok (.int (natOfDigits v))) ∧
    (pyLower v ≠ toCl "true" → pyLower v ≠ toCl "false" → pyIsdigit v = false →
      ∀ q, pyFloatE v = .ok q → coerceValueE v = .ok (.float q)) ∧
    (pyLower v ≠ toCl "true" → pyLower v ≠ toCl "false" → pyIsdigit v = false →
      ∀ ex, pyFloatE v = .error ex → coerceValueE v = .ok (.str v)) ∧
    processEntriesE [] (settingsList (toCl "k1=true,k2=3,k3=2.5,k4=hello")) =
      .ok ([(toCl "k1", .bool true), (toCl "k2", .int 3),
            (toCl "k3", .float (.finite 25 10)), (toCl "k4", .str (toCl "hello"))], []) ∧
    PyFloat.toRat (.finite 25 10) = some ((5 : ℚ) / 2) := by
  refine ⟨?_, ?_, ?_, ?_, ?_, by decide, by norm_num [PyFloat.toRat]⟩
  · intro h
    rw [coerceValueE_bool (Or.inl h), decide_eq_true h]
  · intro h
    have hne : pyLower v ≠ toCl "true" := by rw [h]; decide
    rw [coerceValueE_bool (Or.inr h), decide_eq_false hne]
  · intro h1 h2 hd
    exact coerceValueE_int (fun hor => hor.elim h1 h2) hA hd
  · intro h1 h2 hd q hq
    exact coerceValueE_float (fun hor => hor.elim h1 h2) hd hq
  · intro h1 h2 hd ex hq
    exact coerceValueE_str (fun hor => hor.elim h1 h2) hd hq

/-- C1 witness: the amended precedence instantiated at the ASCII value 42
together with the canonical example. -/
theorem coercion_precedence_ascii_witness :
    allAscii (toCl "42") = true ∧
    ((pyLower (toCl "42") = toCl "true" → coerceValueE (toCl "42") = .ok (.bool true)) ∧
     (pyLower (toCl "42") = toCl "false" → coerceValueE (toCl "42") = .ok (.bool false)) ∧
     (pyLower (toCl "42") ≠ toCl "true" → pyLower (toCl "42") ≠ toCl "false" →
       pyIsdigit (toCl "42") = true →
       coerceValueE (toCl "42") = .ok (.int (natOfDigits (toCl "42")))) ∧
     (pyLower (toCl "42") ≠ toCl "true" → pyLower (toCl "42") ≠ toCl "false" →
       pyIsdigit (toCl "42") = false →
       ∀ q, pyFloatE (toCl "42") = .ok q → coerceValueE (toCl "42") = .ok (.float q)) ∧
     (pyLower (toCl "42") ≠ toCl "true" → pyLower (toCl "42") ≠ toCl "false" →
       pyIsdigit (toCl "42") = false →
       ∀ ex, pyFloatE (toCl "42") = .error ex →
         coerceValueE (toCl "42") = .ok (.str (toCl "42"))) ∧
     processEntriesE [] (settingsList (toCl "k1=true,k2=3,k3=2.5,k4=hello")) =
       .ok ([(toCl "k1", .bool true), (toCl "k2", .int 3),
             (toCl "k3", .float (.finite 25 10)), (toCl "k4", .str (toCl "hello"))], []) ∧
     PyFloat.toRat (.finite 25 10) = some ((5 : ℚ) / 2)) :=
  ⟨by decide, coercion_precedence_ascii (by decide)⟩

/-- C3: an entry without an '=' separator among valid entries is dropped —
the resulting mapping equals the one computed from the well-formed entries
alone — a warning identifying the malformed entry is emitted, and no fatal
error occurs; for a=1,bad,c=2 the result keeps a=1 and c=2, binds no key
for bad, and emits exactly the warning naming bad. -/
theorem malformed_entry_dropped {l : List (List Char)} {m : Dict} {w : List (List Char)}
    {e : List Char} (h : processEntriesE [] l = .ok (m, w)) (he : e ∈ l)
    (hne : hasChar '=' e = false) :
    warnMsg e ∈ w ∧
    processEntriesE [] (l.filter (fun x => hasChar '=' x)) = .ok (m, []) ∧
    processEntriesE [] (settingsList (toCl "a=1,bad,c=2")) =
      .ok ([(toCl "a", .int 1), (toCl "c", .int 2)], [warnMsg (toCl "bad")]) ∧
    dictLookup [(toCl "a", .int 1), (toCl "c", .int 2)] (toCl "bad") = none := by
  refine ⟨?_, processEntriesE_filter h, by decide, by decide⟩
  rw [processEntriesE_warnings h]
  exact List.mem_map_of_mem warnMsg (List.mem_filter.mpr ⟨he, by simp [hne]⟩)

/-- C3 witness: the malformed-entry behaviour instantiated at the
candidate-entry list of a=1,bad,c=2. -/
theorem malformed_entry_dropped_witness :
    processEntriesE [] [toCl "a=1", toCl "bad", toCl "c=2"] =
      .ok ([(toCl "a", .int 1), (toCl "c", .int 2)], [warnMsg (toCl "bad")]) ∧
    toCl "bad" ∈ [toCl "a=1", toCl "bad", toCl "c=2"] ∧
    hasChar '=' (toCl "bad") = false ∧
    (warnMsg (toCl "bad") ∈ [warnMsg (toCl "bad")] ∧
     processEntriesE [] ([toCl "a=1", toCl "bad", toCl "c=2"].filter
         (fun x => hasChar '=' x)) =
       .ok ([(toCl "a", .int 1), (toCl "c", .int 2)], []) ∧
     processEntriesE [] (settingsList (toCl "a=1,bad,c=2")) =
       .ok ([(toCl "a", .int 1), (toCl "c", .int 2)], [warnMsg (toCl "bad")]) ∧
     dictLookup [(toCl "a", .int 1), (toCl "c", .int 2)] (toCl "bad") = none) :=
  ⟨by decide, by decide, by decide,
    malformed_entry_dropped (by decide) (by decide) (by decide)⟩

/-- C4 counterexample: the settings string a=1,b=² aborts the coercion with
an uncaught ValueError raised by int() on the value ² (accepted by
str.isdigit, rejected by int), so not every input string yields a
mapping. -/
theorem parse_abort_counterexample :
    processEntriesE [] (settingsList (toCl "a=1,b=²")) = .error (.valueError (toCl "²")) ∧
    isOkE (processEntriesE [] (settingsList (toCl "a=1,b=²"))) = false :=
  ⟨by decide, by decide⟩

/-- C4 (amended): for every settings string of ASCII characters the
coercion terminates normally and returns a mapping; the only handled
exception is the float-parse failure, whose catch-all keeps the original
string value. (Values whose isdigit test passes through non-decimal digit
characters such as ² instead raise an uncaught ValueError from int().) -/
theorem parse_total_ascii {s v : List Char} (hA : allAscii s = true)
    (h1 : pyLower v ≠ toCl "true") (h2 : pyLower v ≠ toCl "false")
    (hd : pyIsdigit v = false) (hf : isOkE (pyFloatE v) = false) :
    (∃ m w, processEntriesE [] (settingsList s) = .ok (m, w)) ∧
    coerceValueE v = .ok (.str v) := by
  constructor
  · obtain ⟨mw, hmw⟩ := processEntriesE_ok_ascii (settingsList_ascii hA)
    exact ⟨mw.1, mw.2, by rw [hmw]⟩
  · cases hq : pyFloatE v with
    | ok q =>
      rw [hq] at hf
      simp [isOkE] at hf
    | error ex => exact coerceValueE_str (fun hor => hor.elim h1 h2) hd hq

/-- C4 witness: totality on the ASCII string a=1,b=x and the string
fallback on the value hello. -/
theorem parse_total_ascii_witness :
    allAscii (toCl "a=1,b=x") = true ∧
    pyLower (toCl "hello") ≠ toCl "true" ∧
    pyLower (toCl "hello") ≠ toCl "false" ∧
    pyIsdigit (toCl "hello") = false ∧
    isOkE (pyFloatE (toCl "hello")) = false ∧
    ((∃ m w, processEntriesE [] (settingsList (toCl "a=1,b=x")) = .ok (m, w)) ∧
     coerceValueE (toCl "hello") = .ok (.str (toCl "hello"))) :=
  ⟨by decide, by decide, by decide, by decide, by decide,
    parse_total_ascii (by decide) (by decide) (by decide) (by decide) (by decide)⟩

/-- C5 counterexample: the value string is NOT trimmed before type
inference: k= 5 coerces to the float 5.0 (the boolean and isdigit tests
see the padded string and fail; float() itself ignores the padding) where
trimming first would give the integer 5; b= true stays the string
" true" instead of becoming a boolean; and a padded value is coerced
differently from its unpadded form. -/
theorem value_not_trimmed_counterexample :
    processEntriesE [] (settingsList (toCl "k= 5")) =
      .ok ([(toCl "k", .float (.finite 5 1))], []) ∧
    SettingValue.float (.finite 5 1) ≠ SettingValue.int 5 ∧
    processEntriesE [] (settingsList (toCl "b= true")) =
      .ok ([(toCl "b", .str (toCl " true"))], []) ∧
    SettingValue.str (toCl " true") ≠ SettingValue.bool true ∧
    coerceValueE (toCl " 5") ≠ coerceValueE (toCl "5") :=
  ⟨by decide, by decide, by decide, by decide, by decide⟩

/-- C5 (amended): for every well-formed entry k=v the stored key is k
stripped of surrounding whitespace, while the value string is handed to
type inference exactly as split — untrimmed. -/
theorem key_trimmed_value_raw {k v : List Char} {d : Dict}
    (h : hasChar '=' k = false) :
    processEntriesE d [k ++ '=' :: v] =
      (coerceValueE v).map (fun sv => (dictInsert d (pyStrip k) sv, [])) := by
  rw [processEntriesE_cons_some (splitFirstOn_append h)]
  cases hc : coerceValueE v with
  | ok sv => simp [Except.bind, Except.map, processEntriesE_nil]
  | error ex => simp [Except.bind, Except.map]

/-- C5 witness: the key " K " is stored stripped and the raw value 2 is
coerced. -/
theorem key_trimmed_value_raw_witness :
    hasChar '=' (toCl " K ") = false ∧
    processEntriesE [] [toCl " K " ++ '=' :: toCl "2"] =
      (coerceValueE (toCl "2")).map
        (fun sv => (dictInsert [] (pyStrip (toCl " K ")) sv, [])) :=
  ⟨by decide, key_trimmed_value_raw (by decide)⟩

/-- C6: the coercion splits the input on commas exactly when the string
contains a comma (otherwise the whole string is the single candidate
entry), and each candidate entry is split at the first '=' only, so a
value may itself contain '=' characters — a=b=c binds a to the string
b=c. -/
theorem splitting_behavior {s t k v : List Char}
    (h1 : hasChar ',' s = false) (h2 : hasChar ',' t = true)
    (h3 : hasChar '=' k = false) :
    settingsList s = [s] ∧
    settingsList t = splitOnChar ',' t ∧
    splitFirstOn '=' (k ++ '=' :: v) = some (k, v) ∧
    processEntriesE [] (settingsList (toCl "a=b=c")) =
      .ok ([(toCl "a", .str (toCl "b=c"))], []) := by
  refine ⟨?_, ?_, splitFirstOn_append h3, by decide⟩
  · rw [settingsList, if_neg (by rw [h1]; exact Bool.false_ne_true)]
  · rw [settingsList, if_pos h2]

/-- C6 witness: the splitting behaviour instantiated at a comma-free
string, a comma-containing string, and an entry whose value contains
'='. -/
theorem splitting_behavior_witness :
    hasChar ',' (toCl "a=1") = false ∧
    hasChar ',' (toCl "a,b") = true ∧
    hasChar '=' (toCl "key") = false ∧
    (settingsList (toCl "a=1") = [toCl "a=1"] ∧
     settingsList (toCl "a,b") = splitOnChar ',' (toCl "a,b") ∧
     splitFirstOn '=' (toCl "key" ++ '=' :: toCl "x=y") = some (toCl "key", toCl "x=y") ∧
     processEntriesE [] (settingsList (toCl "a=b=c")) =
       .ok ([(toCl "a", .str (toCl "b=c"))], [])) :=
  ⟨by decide, by decide, by decide,
    splitting_behavior (by decide) (by decide) (by decide)⟩

/-- C7: for the value -5 the all-digit test fails (a leading minus is
never a digit), the float parse succeeds, and the coerced value is the
float -5.0 — neither an integer nor a string. -/
theorem negative_five_float :
    pyIsdigit (toCl "-5") = false ∧
    pyFloatE (toCl "-5") = .ok (.finite (-5) 1) ∧
    coerceValueE (toCl "-5") = .ok (.float (.finite (-5) 1)) ∧
    PyFloat.toRat (.finite (-5) 1) = some ((-5 : ℚ)) ∧
    (∀ n : Int, coerceValueE (toCl "-5") ≠ .ok (.int n)) ∧
    (∀ s : List Char, coerceValueE (toCl "-5") ≠ .ok (.str s)) := by
  refine ⟨by decide, by decide, by decide, by norm_num [PyFloat.toRat], ?_, ?_⟩
  · intro n h
    rw [show coerceValueE (toCl "-5") = .ok (.float (.finite (-5) 1)) from by decide] at h
    injection h with h
    exact SettingValue.noConfusion h
  · intro s h
    rw [show coerceValueE (toCl "-5") = .ok (.float (.finite (-5) 1)) from by decide] at h
    injection h with h
    exact SettingValue.noConfusion h

/-- C8: the logging policy is a function of the debug flag alone —
reconfiguration is forced, so nothing of a previous state survives; with
debug the scrapit logger is at DEBUG, the scrapy collaborator at INFO and
the format carries file/line context; without debug the scrapit logger is
at INFO, scrapy at WARNING, and the format is the compact one. -/
theorem logging_policy (st st' : LoggingState) (d : Bool) :
    setup_logging st d = setup_logging st' d ∧
    setup_logging st true = ⟨logDEBUG, debugFormat, true, logDEBUG, logINFO⟩ ∧
    setup_logging st false = ⟨logINFO, stdFormat, true, logINFO, logWARNING⟩ ∧
    hasSub (toCl "[%(filename)s:%(lineno)d]") debugFormat = true ∧
    hasSub (toCl "%(filename)s") stdFormat = false := by
  refine ⟨?_, rfl, rfl, by decide, by decide⟩
  cases d <;> rfl

/-- C9: create_app installs the permissive CORS policy (all origins, all
methods, all headers, credentials allowed), invokes the route factory
exactly once with precisely the five configured values, mounts the
returned routes, and its title/description/version metadata is static and
independent of the configuration. -/
theorem create_app_spec (R R' : Type) (f : RouterArgs → R) (f' : RouterArgs → R')
    (pp pp' : Option (List Char)) (t t' : Option ℚ) (s s' : Dict)
    (d d' il il' : Bool) :
    (create_app R f pp t s d il).2 = [⟨pp, t, s, d, il⟩] ∧
    (create_app R f pp t s d il).1.routers = [f ⟨pp, t, s, d, il⟩] ∧
    (create_app R f pp t s d il).1.middleware =
      [⟨[toCl "*"], true, [toCl "*"], [toCl "*"]⟩] ∧
    (create_app R f pp t s d il).1.title = toCl "ScrapyRT-Compatible API" ∧
    (create_app R f pp t s d il).1.version = toCl "1.0.0" ∧
    (create_app R f pp t s d il).1.description =
      toCl "FastAPI wrapper for Scrapy spiders with ScrapyRT compatibility" ∧
    (create_app R f pp t s d il).1.title = (create_app R' f' pp' t' s' d' il').1.title ∧
    (create_app R f pp t s d il).1.description =
      (create_app R' f' pp' t' s' d' il').1.description ∧
    (create_app R f pp t s d il).1.version = (create_app R' f' pp' t' s' d' il').1.version :=
  ⟨rfl, rfl, rfl, rfl, rfl, rfl, rfl, rfl, rfl⟩

/-- C10: when the settings parse succeeds, each key is bound at most once
in the resulting mapping, its value is the coerced value of the last
entry with that trimmed key in left-to-right order, and warnings come
only from entries without '=' — duplicates warn nothing. -/
theorem duplicate_keys_last_wins {l : List (List Char)} {m : Dict}
    {w : List (List Char)} {k : List Char}
    (h : processEntriesE [] l = .ok (m, w)) :
    (dictKeys m).Nodup ∧
    dictLookup m k = lastOk k l ∧
    w = (l.filter (fun e => !(hasChar '=' e))).map warnMsg := by
  refine ⟨processEntriesE_nodup (by simp [dictKeys]) h, ?_, processEntriesE_warnings h⟩
  have hp := dictLookup_processEntriesE (k := k) h
  cases hl : lastOk k l with
  | some v => exact hp.1 v hl
  | none =>
    rw [hp.2 hl]
    rfl

/-- C10 witness: x=1, x =2 binds x once, to the integer 2, with no
warning. -/
theorem duplicate_keys_last_wins_witness :
    processEntriesE [] [toCl "x=1", toCl " x =2"] = .ok ([(toCl "x", .int 2)], []) ∧
    ((dictKeys [(toCl "x", SettingValue.int 2)]).Nodup ∧
     dictLookup [(toCl "x", SettingValue.int 2)] (toCl "x") =
       lastOk (toCl "x") [toCl "x=1", toCl " x =2"] ∧
     ([] : List (List Char)) =
       (([toCl "x=1", toCl " x =2"].filter (fun e => !(hasChar '=' e))).map warnMsg)) :=
  ⟨by decide, duplicate_keys_last_wins (by decide)⟩

/-- C2 counterexample: an explicitly given but empty --project value is
falsy, so the code resolves the path to the CWD (Python `or`): with
project = "" and a filesystem in which only "/" is a directory (and the
CWD is "/"), run serves instead of exiting fatally, although the
resolution as the claim words it ("the explicit --project value if
given") yields "", which is not an existing directory. -/
theorem empty_project_falsy_counterexample :
    isExited (run Unit (fun _x => ()) (fun p => decide (p = toCl "/")) (toCl "/")
      ⟨9080, toCl "0.0.0.0", some [], none, none, false, true⟩) = false ∧
    decide (resolved_project_path_spec (some []) (toCl "/") = toCl "/") = false ∧
    resolved_project_path (some []) (toCl "/") = toCl "/" :=
  ⟨by decide, by decide, by decide⟩

/-- C2 (amended): whenever the settings coercion completes (cf. C4 for the
way it can itself abort), run exits fatally — with exit code 1, before
create_app is invoked — exactly when the code-resolved project path (the
explicit --project value if given and non-empty, else the current working
directory) is not an existing directory; otherwise it proceeds to
assemble the application and serve, so no further configuration condition
is fatal. -/
theorem run_fatal_exit_iff (R : Type) (f : RouterArgs → R) (isdir : List Char → Bool)
    (cwd : List Char) (o : CliOpts) (dict : Dict)
    (h : parsedSettings o = .ok dict) :
    (run R f isdir cwd o = .exited 1 ↔
      isdir (resolved_project_path o.project cwd) = false) ∧
    (isdir (resolved_project_path o.project cwd) = true →
      run R f isdir cwd o =
        .serving
          (create_app R f (some (resolved_project_path o.project cwd)) o.timeout dict
            o.debug o.include_logs).1
          o.host o.port (if o.debug then toCl "debug" else toCl "info")) := by
  simp only [run, h]
  cases hd : isdir (resolved_project_path o.project cwd) with
  | false => simp
  | true => simp

/-- C2 witness: the amended exit rule instantiated with a filesystem that
has no directories, the CWD /w, no explicit project, and the settings
string T=1. -/
theorem run_fatal_exit_iff_witness :
    parsedSettings ⟨9080, toCl "0.0.0.0", none, some (toCl "T=1"), none, false, true⟩ =
      .ok [(toCl "T", SettingValue.int 1)] ∧
    ((run Unit (fun _x => ()) (fun _p => false) (toCl "/w")
        ⟨9080, toCl "0.0.0.0", none, some (toCl "T=1"), none, false, true⟩ = .exited 1 ↔
      (fun _p : List Char => false)
          (resolved_project_path (none : Option (List Char)) (toCl "/w")) = false) ∧
     ((fun _p : List Char => false)
          (resolved_project_path (none : Option (List Char)) (toCl "/w")) = true →
       run Unit (fun _x => ()) (fun _p => false) (toCl "/w")
           ⟨9080, toCl "0.0.0.0", none, some (toCl "T=1"), none, false, true⟩ =
         .serving
           (create_app Unit (fun _x => ())
             (some (resolved_project_path (none : Option (List Char)) (toCl "/w")))
             none [(toCl "T", SettingValue.int 1)] false true).1
           (toCl "0.0.0.0") 9080 (if false then toCl "debug" else toCl "info"))) :=
  ⟨by decide,
    run_fatal_exit_iff Unit (fun _x => ()) (fun _p => false) (toCl "/w")
      ⟨9080, toCl "0.0.0.0", none, some (toCl "T=1"), none, false, true⟩
      [(toCl "T", SettingValue.int 1)] (by decide)⟩

end Scrapit
